import Mathlib

set_option linter.unusedVariables false

/-!
Verification of the `SphericalCovarianceKernel` class of
`src/eddymotion/model/kernels.py` against its natural-language specification.

The kernel is embedded shallowly over `ℚ`:
* the mutable Python object becomes an immutable structure; the in-place
  `set_params` mutation becomes a function returning the updated record;
* `n × n` numpy arrays become functions `Fin n → Fin n → ℚ`, and the
  `(n, n, 3)` gradient tensor becomes `Fin n → Fin n → Fin 3 → ℚ` (the shape
  is carried by the type);
* `None` / optional return values become `Option`;
* the Python keyword-argument dictionaries of `get_params` / `set_params`
  become association lists `List (String × ℚ)`, with `dict.get(key, default)`
  embedded as `(l.lookup key).getD default`.
-/

/-- Bounds of a hyperparameter: either the sentinel `"fixed"` or a
`(low, high)` pair, as accepted by the Python constructor. -/
inductive Bounds where
  | fixed : Bounds
  | interval : ℚ → ℚ → Bounds
deriving DecidableEq

/-- The state of a `SphericalCovarianceKernel` instance: the three scalar
hyperparameters `lambda_s`, `a`, `sigma_sq` and their bounds, exactly the
attributes assigned in `__init__`. -/
structure SphericalCovarianceKernel where
  lambda_s : ℚ
  a : ℚ
  sigma_sq : ℚ
  lambda_s_bounds : Bounds
  a_bounds : Bounds
  sigma_sq_bounds : Bounds
deriving DecidableEq

namespace SphericalCovarianceKernel

/-- Elementwise base correlation, the two branches of
`np.where(theta <= self.a, 1 - 3 * (theta / self.a) ** 2 + 2 * (theta / self.a) ** 3, 0)`. -/
def K_base (a t : ℚ) : ℚ :=
  if t ≤ a then 1 - 3 * (t / a) ^ 2 + 2 * (t / a) ^ 3 else 0

/-- Elementwise masked derivative term: `dists_deriv` is initialised to zeros
and set on the mask `theta <= self.a` to
`(3 * theta[mask] / self.a**2) - (1.5 * (theta[mask] / self.a) ** 2) / self.a`. -/
def dists_deriv (a t : ℚ) : ℚ :=
  if t ≤ a then 3 * t / a ^ 2 - (3 / 2 * (t / a) ^ 2) / a else 0

/-- The `K_gradient` tensor built when `eval_gradient` is true:
column 0 is `K / self.lambda_s` (with `K` the base correlation matrix before
scaling), column 1 is `self.lambda_s * dists_deriv`, column 2 is
`np.eye(len(theta))`. -/
def K_gradient_fun (k : SphericalCovarianceKernel) {n : ℕ}
    (t : Fin n → Fin n → ℚ) : Fin n → Fin n → Fin 3 → ℚ :=
  fun i j c =>
    if c = 0 then K_base k.a (t i j) / k.lambda_s
    else if c = 1 then k.lambda_s * dists_deriv k.a (t i j)
    else if i = j then 1 else 0

/-- `__call__(self, theta, theta_prime=None, eval_gradient=False)`:
if `theta_prime` is not `None` it replaces `theta`; the returned kernel matrix
is `self.lambda_s * K + self.sigma_sq * np.eye(len(theta))` and the gradient
tensor is returned only when `eval_gradient` is true (`None` otherwise). -/
def call (k : SphericalCovarianceKernel) {n : ℕ}
    (theta : Fin n → Fin n → ℚ) (theta_prime : Option (Fin n → Fin n → ℚ))
    (eval_gradient : Bool) :
    (Fin n → Fin n → ℚ) × Option (Fin n → Fin n → Fin 3 → ℚ) :=
  let t := theta_prime.getD theta
  ((fun i j => k.lambda_s * K_base k.a (t i j)
      + k.sigma_sq * (if i = j then 1 else 0)),
   if eval_gradient then some (K_gradient_fun k t) else none)

/-- `diag(self, X)`: `np.full(X.shape[0], self.lambda_s + self.sigma_sq)` —
a vector with one entry per row of `X`, ignoring the contents of `X`. -/
def diag (k : SphericalCovarianceKernel) {m p : ℕ}
    (X : Fin m → Fin p → ℚ) : Fin m → ℚ :=
  fun _ => k.lambda_s + k.sigma_sq

/-- `is_stationary(self)`: always `True`. -/
def is_stationary (k : SphericalCovarianceKernel) : Bool :=
  true

/-- `get_params(self, deep=True)`: returns the dictionary
`{"lambda_s": self.lambda_s, "a": self.a, "sigma_sq": self.sigma_sq}`;
the `deep` argument is not used by the body. -/
def get_params (k : SphericalCovarianceKernel) (deep : Bool) :
    List (String × ℚ) :=
  [("lambda_s", k.lambda_s), ("a", k.a), ("sigma_sq", k.sigma_sq)]

/-- `set_params(self, **params)`: each of the three fields is replaced by
`params.get(name, current_value)`; every other attribute is untouched and
other keys of `params` are never read. The Python method mutates `self` and
returns it; here the updated record is returned. -/
def set_params (k : SphericalCovarianceKernel) (params : List (String × ℚ)) :
    SphericalCovarianceKernel :=
  { k with
    lambda_s := (params.lookup "lambda_s").getD k.lambda_s
    a := (params.lookup "a").getD k.a
    sigma_sq := (params.lookup "sigma_sq").getD k.sigma_sq }

end SphericalCovarianceKernel

open SphericalCovarianceKernel

/-- The kernel instance of concrete scenario 4 of the spec:
`lambda_s = 2`, `a = 0.5`, `sigma_sq = 0.1` (bounds values are irrelevant to
every evaluation claim). -/
def exampleKernel : SphericalCovarianceKernel :=
  { lambda_s := 2
    a := 1 / 2
    sigma_sq := 1 / 10
    lambda_s_bounds := Bounds.interval (1 / 100000) 10000
    a_bounds := Bounds.interval (1 / 100000) 4
    sigma_sq_bounds := Bounds.interval (1 / 100000) 10000 }

/-- The angle matrix of concrete scenario 4: `[[0, 0.25], [0.25, 0]]`. -/
def exampleTheta : Fin 2 → Fin 2 → ℚ :=
  fun i j => if i = j then 0 else 1 / 4

/-- C1: for `a > 0` the kernel matrix entry `(i, j)` is
`lambda_s * (1 - 3*(theta[i,j]/a)^2 + 2*(theta[i,j]/a)^3)` when
`theta[i,j] ≤ a` and `0` otherwise, plus `sigma_sq` on the diagonal only;
in particular for `theta = [[0, 0.25], [0.25, 0]]`, `lambda_s = 2`,
`a = 0.5`, `sigma_sq = 0.1` the result is `[[2.1, 1.0], [1.0, 2.1]]`. -/
theorem C1_kernel_matrix_entries {n : ℕ} (k : SphericalCovarianceKernel)
    (theta : Fin n → Fin n → ℚ) (eg : Bool) (ha : 0 < k.a) :
    (∀ i j, (call k theta none eg).1 i j =
        (if theta i j ≤ k.a then
          k.lambda_s * (1 - 3 * (theta i j / k.a) ^ 2 + 2 * (theta i j / k.a) ^ 3)
        else 0)
        + (if i = j then k.sigma_sq else 0)) ∧
    (∀ i j : Fin 2, (call exampleKernel exampleTheta none false).1 i j
        = if i = j then 21 / 10 else 1) := by
  constructor
  · intro i j
    simp only [call, Option.getD_none, K_base]
    by_cases h : theta i j ≤ k.a <;> by_cases hij : i = j <;>
      simp [h, hij, mul_ite, mul_zero, mul_one]
  · intro i j
    fin_cases i <;> fin_cases j <;>
      norm_num [call, K_base, exampleKernel, exampleTheta]

/-- Witness for C1 at the concrete scenario-4 instance. -/
theorem C1_witness :
    0 < exampleKernel.a ∧
    ((∀ i j, (call exampleKernel exampleTheta none false).1 i j =
        (if exampleTheta i j ≤ exampleKernel.a then
          exampleKernel.lambda_s * (1 - 3 * (exampleTheta i j / exampleKernel.a) ^ 2
            + 2 * (exampleTheta i j / exampleKernel.a) ^ 3)
        else 0)
        + (if i = j then exampleKernel.sigma_sq else 0)) ∧
     (∀ i j : Fin 2, (call exampleKernel exampleTheta none false).1 i j
        = if i = j then 21 / 10 else 1)) :=
  ⟨by norm_num [exampleKernel],
   C1_kernel_matrix_entries exampleKernel exampleTheta false
     (by norm_num [exampleKernel])⟩

/-- C2: with `eval_gradient = true` the returned gradient tensor has shape
`(n, n, 3)` (carried here by the type `Fin n → Fin n → Fin 3 → ℚ`); its
column 1 entry `(i, j)` is
`lambda_s * ((3*theta[i,j]/a^2) - (1.5*(theta[i,j]/a)^2)/a)` when
`theta[i,j] ≤ a` and `0` otherwise, and column 2 is the identity matrix. -/
theorem C2_gradient_columns {n : ℕ} (k : SphericalCovarianceKernel)
    (theta : Fin n → Fin n → ℚ) :
    (call k theta none true).2 = some (K_gradient_fun k theta) ∧
    (∀ i j, K_gradient_fun k theta i j 1 =
        if theta i j ≤ k.a then
          k.lambda_s * (3 * theta i j / k.a ^ 2 - (3 / 2 * (theta i j / k.a) ^ 2) / k.a)
        else 0) ∧
    (∀ i j, K_gradient_fun k theta i j 2 = if i = j then 1 else 0) := by
  refine ⟨rfl, fun i j => ?_, fun i j => ?_⟩
  · simp [K_gradient_fun, dists_deriv, mul_ite, mul_zero]
  · simp [K_gradient_fun]

/-- C3 counterexample: at `lambda_s = 2`, `a = 0.5`, `sigma_sq = 0.1` and
`theta = [[0, 0.25], [0.25, 0]]`, gradient column 0 holds `0.25` at the
off-diagonal entry `(0, 1)` while `K[0,1] / lambda_s = 0.5`, and holds `0.5`
at `(0, 0)` while `K[0,0] / lambda_s = 1.05`: the code divides the unscaled
base correlation matrix — not the returned kernel matrix — by `lambda_s`. -/
theorem C3_counterexample :
    (call exampleKernel exampleTheta none true).2
        = some (K_gradient_fun exampleKernel exampleTheta) ∧
    K_gradient_fun exampleKernel exampleTheta 0 1 0
        ≠ (call exampleKernel exampleTheta none true).1 0 1
            / exampleKernel.lambda_s ∧
    K_gradient_fun exampleKernel exampleTheta 0 0 0
        ≠ (call exampleKernel exampleTheta none true).1 0 0
            / exampleKernel.lambda_s := by
  refine ⟨rfl, ?_, ?_⟩ <;>
    norm_num [K_gradient_fun, K_base, call, exampleKernel, exampleTheta]

/-- C3 as amended: for `a > 0` and `lambda_s > 0`, gradient column 0 holds
the base correlation matrix divided by `lambda_s`; in terms of the returned
kernel matrix `K` that is `(K - sigma_sq * I) / lambda_s ^ 2`, not
`K / lambda_s`. -/
theorem C3_gradient_column_zero {n : ℕ} (k : SphericalCovarianceKernel)
    (theta : Fin n → Fin n → ℚ) (ha : 0 < k.a) (hl : 0 < k.lambda_s) :
    (call k theta none true).2 = some (K_gradient_fun k theta) ∧
    ∀ i j, K_gradient_fun k theta i j 0 =
      ((call k theta none true).1 i j - (if i = j then k.sigma_sq else 0))
        / k.lambda_s ^ 2 := by
  refine ⟨rfl, fun i j => ?_⟩
  have hnum : k.lambda_s * K_base k.a (theta i j)
      + k.sigma_sq * (if i = j then (1 : ℚ) else 0)
      - (if i = j then k.sigma_sq else 0)
      = k.lambda_s * K_base k.a (theta i j) := by
    by_cases hij : i = j <;> simp [hij]
  have hc : (call k theta none true).1 i j
      = k.lambda_s * K_base k.a (theta i j)
        + k.sigma_sq * (if i = j then (1 : ℚ) else 0) := rfl
  show K_base k.a (theta i j) / k.lambda_s = _
  rw [hc, hnum, pow_two]
  exact (mul_div_mul_left _ _ hl.ne').symm

/-- Witness for the amended C3 at the concrete scenario-4 instance. -/
theorem C3_witness :
    0 < exampleKernel.a ∧ 0 < exampleKernel.lambda_s ∧
    ((call exampleKernel exampleTheta none true).2
        = some (K_gradient_fun exampleKernel exampleTheta) ∧
     ∀ i j, K_gradient_fun exampleKernel exampleTheta i j 0 =
        ((call exampleKernel exampleTheta none true).1 i j
          - (if i = j then exampleKernel.sigma_sq else 0))
          / exampleKernel.lambda_s ^ 2) :=
  ⟨by norm_num [exampleKernel], by norm_num [exampleKernel],
   C3_gradient_column_zero exampleKernel exampleTheta
     (by norm_num [exampleKernel]) (by norm_num [exampleKernel])⟩

/-- C4: a supplied `theta_prime` entirely replaces `theta`: the call on
`(theta, some theta_prime, eval_gradient)` returns exactly the result of the
call on `(theta_prime, none, eval_gradient)`. -/
theorem C4_theta_prime_replaces {n : ℕ} (k : SphericalCovarianceKernel)
    (theta theta_pr : Fin n → Fin n → ℚ) (eg : Bool) :
    call k theta (some theta_pr) eg = call k theta_pr none eg := rfl

/-- C5: for `lambda_s ≥ 0`, `sigma_sq ≥ 0`, `a > 0` and a symmetric angle
matrix with zero diagonal, the kernel matrix is symmetric and every diagonal
entry equals `lambda_s + sigma_sq`. -/
theorem C5_symmetric_diagonal {n : ℕ} (k : SphericalCovarianceKernel)
    (theta : Fin n → Fin n → ℚ) (hl : 0 ≤ k.lambda_s) (hs : 0 ≤ k.sigma_sq)
    (ha : 0 < k.a) (hsym : ∀ i j, theta i j = theta j i)
    (hdiag : ∀ i, theta i i = 0) :
    (∀ i j, (call k theta none false).1 i j = (call k theta none false).1 j i) ∧
    (∀ i, (call k theta none false).1 i i = k.lambda_s + k.sigma_sq) := by
  constructor
  · intro i j
    simp only [call, Option.getD_none]
    rw [hsym i j]
    by_cases hij : i = j
    · subst hij; rfl
    · rw [if_neg hij, if_neg (fun h => hij h.symm)]
  · intro i
    simp only [call, Option.getD_none, if_pos rfl]
    rw [hdiag i, K_base, if_pos ha.le]
    norm_num

/-- Witness for C5 at the concrete scenario-4 instance. -/
theorem C5_witness :
    (0 ≤ exampleKernel.lambda_s ∧ 0 ≤ exampleKernel.sigma_sq ∧
      0 < exampleKernel.a ∧ (∀ i j, exampleTheta i j = exampleTheta j i) ∧
      (∀ i, exampleTheta i i = 0)) ∧
    ((∀ i j, (call exampleKernel exampleTheta none false).1 i j
        = (call exampleKernel exampleTheta none false).1 j i) ∧
     (∀ i, (call exampleKernel exampleTheta none false).1 i i
        = exampleKernel.lambda_s + exampleKernel.sigma_sq)) :=
  ⟨⟨by norm_num [exampleKernel], by norm_num [exampleKernel],
    by norm_num [exampleKernel],
    fun i j => by fin_cases i <;> fin_cases j <;> simp [exampleTheta],
    fun i => by simp [exampleTheta]⟩,
   C5_symmetric_diagonal exampleKernel exampleTheta
     (by norm_num [exampleKernel]) (by norm_num [exampleKernel])
     (by norm_num [exampleKernel])
     (fun i j => by fin_cases i <;> fin_cases j <;> simp [exampleTheta])
     (fun i => by simp [exampleTheta])⟩

/-- C6: for `a > 0` the elementwise base correlation satisfies
`K_base(0) = 1`, `K_base(a) = 0`, it is non-increasing on `[0, a]`, and
`K_base(t) = 0` for every `t > a`. -/
theorem C6_base_correlation_shape (a : ℚ) (ha : 0 < a) :
    K_base a 0 = 1 ∧ K_base a a = 0 ∧
    (∀ s t, 0 ≤ s → s ≤ t → t ≤ a → K_base a t ≤ K_base a s) ∧
    (∀ t, a < t → K_base a t = 0) := by
  refine ⟨?_, ?_, ?_, ?_⟩
  · rw [K_base, if_pos ha.le]
    norm_num
  · rw [K_base, if_pos le_rfl, div_self ha.ne']
    norm_num
  · intro s t hs hst hta
    have hsa : s ≤ a := hst.trans hta
    rw [K_base, K_base, if_pos hta, if_pos hsa]
    have hu0 : 0 ≤ s / a := div_nonneg hs ha.le
    have huv : s / a ≤ t / a := by gcongr
    have hv1 : t / a ≤ 1 := (div_le_one ha).2 hta
    have hu1 : s / a ≤ 1 := huv.trans hv1
    have hv0 : 0 ≤ t / a := hu0.trans huv
    nlinarith [mul_nonneg (mul_nonneg (sub_nonneg.2 huv) hu0) (sub_nonneg.2 hu1),
      mul_nonneg (mul_nonneg (sub_nonneg.2 huv) hv0) (sub_nonneg.2 hv1),
      mul_nonneg (mul_nonneg (sub_nonneg.2 huv) hu0) (sub_nonneg.2 hv1),
      mul_nonneg (mul_nonneg (sub_nonneg.2 huv) hv0) (sub_nonneg.2 hu1)]
  · intro t hta
    rw [K_base, if_neg (not_le.2 hta)]

/-- Witness for C6 at `a = 1/2`. -/
theorem C6_witness :
    0 < (1 / 2 : ℚ) ∧
    (K_base (1 / 2) 0 = 1 ∧ K_base (1 / 2) (1 / 2) = 0 ∧
     (∀ s t, 0 ≤ s → s ≤ t → t ≤ 1 / 2 → K_base (1 / 2) t ≤ K_base (1 / 2) s) ∧
     (∀ t, 1 / 2 < t → K_base (1 / 2) t = 0)) :=
  ⟨by norm_num, C6_base_correlation_shape (1 / 2) (by norm_num)⟩

/-- C7: `diag` returns one entry per row of `X`, every entry equal to
`lambda_s + sigma_sq`, independently of the contents of `X`. -/
theorem C7_diag_constant {m p q : ℕ} (k : SphericalCovarianceKernel)
    (X : Fin m → Fin p → ℚ) (Y : Fin m → Fin q → ℚ) :
    (∀ i, diag k X i = k.lambda_s + k.sigma_sq) ∧ diag k X = diag k Y :=
  ⟨fun i => rfl, rfl⟩

/-- C8: `set_params (get_params deep)` is a no-op for evaluation: the call
output on any fixed input is unchanged by the round trip. -/
theorem C8_roundtrip {n : ℕ} (k : SphericalCovarianceKernel) (d : Bool)
    (theta : Fin n → Fin n → ℚ) (tp : Option (Fin n → Fin n → ℚ)) (eg : Bool) :
    call (set_params k (get_params k d)) theta tp eg = call k theta tp eg := rfl

/-- C9: `set_params` overwrites exactly the fields whose keys are present in
the mapping, leaves absent fields and all three bounds fields unchanged, and
ignores unrecognized keys (the result depends only on the lookups of the
three recognized keys). -/
theorem C9_set_params_effects (k : SphericalCovarianceKernel)
    (params : List (String × ℚ)) :
    (∀ v, params.lookup "lambda_s" = some v → (set_params k params).lambda_s = v) ∧
    (params.lookup "lambda_s" = none → (set_params k params).lambda_s = k.lambda_s) ∧
    (∀ v, params.lookup "a" = some v → (set_params k params).a = v) ∧
    (params.lookup "a" = none → (set_params k params).a = k.a) ∧
    (∀ v, params.lookup "sigma_sq" = some v → (set_params k params).sigma_sq = v) ∧
    (params.lookup "sigma_sq" = none → (set_params k params).sigma_sq = k.sigma_sq) ∧
    (set_params k params).lambda_s_bounds = k.lambda_s_bounds ∧
    (set_params k params).a_bounds = k.a_bounds ∧
    (set_params k params).sigma_sq_bounds = k.sigma_sq_bounds ∧
    (∀ other, params.lookup "lambda_s" = other.lookup "lambda_s" →
      params.lookup "a" = other.lookup "a" →
      params.lookup "sigma_sq" = other.lookup "sigma_sq" →
      set_params k params = set_params k other) := by
  refine ⟨fun v h => by simp [set_params, h], fun h => by simp [set_params, h],
    fun v h => by simp [set_params, h], fun h => by simp [set_params, h],
    fun v h => by simp [set_params, h], fun h => by simp [set_params, h],
    rfl, rfl, rfl,
    fun other h1 h2 h3 => by simp [set_params, h1, h2, h3]⟩

/-- Witness for C9: updating `a` through a mapping that also carries an
unrecognized key. -/
theorem C9_witness :
    (set_params exampleKernel [("a", 5), ("unknown_key", 7)]).a = 5 ∧
    (set_params exampleKernel [("a", 5), ("unknown_key", 7)]).lambda_s
      = exampleKernel.lambda_s ∧
    (set_params exampleKernel [("a", 5), ("unknown_key", 7)]).a_bounds
      = exampleKernel.a_bounds ∧
    set_params exampleKernel [("a", 5), ("unknown_key", 7)]
      = set_params exampleKernel [("a", 5)] :=
  ⟨(C9_set_params_effects exampleKernel [("a", 5), ("unknown_key", 7)]).2.2.1 5 rfl,
   (C9_set_params_effects exampleKernel [("a", 5), ("unknown_key", 7)]).2.1 rfl,
   (C9_set_params_effects exampleKernel
      [("a", 5), ("unknown_key", 7)]).2.2.2.2.2.2.2.1,
   (C9_set_params_effects exampleKernel
      [("a", 5), ("unknown_key", 7)]).2.2.2.2.2.2.2.2.2 [("a", 5)] rfl rfl rfl⟩

/-- C10: `get_params` returns a mapping with exactly the keys `lambda_s`,
`a`, `sigma_sq` bound to the current field values, and the `deep` flag has no
influence on the output. -/
theorem C10_get_params_keys (k : SphericalCovarianceKernel) (d : Bool) :
    (get_params k d).map Prod.fst = ["lambda_s", "a", "sigma_sq"] ∧
    (get_params k d).lookup "lambda_s" = some k.lambda_s ∧
    (get_params k d).lookup "a" = some k.a ∧
    (get_params k d).lookup "sigma_sq" = some k.sigma_sq ∧
    get_params k true = get_params k false :=
  ⟨rfl, rfl, rfl, rfl, rfl⟩
